import Mathlib

/-!
Verification development for the web-scraping script
scripts/web_scraper.py.

Modelling choices (shallow embedding):
- Python strings are lists of characters (Str).
- An HTML page, as seen through BeautifulSoup, is the document-order
  list of its elements; each element carries its tag name and the text
  that get_text would return for it.
- A sitemap, as seen through ElementTree findall on the url tag, is the
  document-order list of its url elements; each url element carries the
  optional text of its loc child (none when there is no loc child).
- The effectful parts of save_to_files are driven by an environment Env
  recording, for each URL, whether the HTTP fetch + parse raises and
  what page it yields, whether writing a given file name succeeds, the
  values produced by the random number generator, and whether the final
  CSV write succeeds.  The function returns the observable outcome: the
  serialized URL array, the text files written, the CSV file contents
  and the sleep durations performed.
-/

namespace WebScraper

/-- Python strings are modelled as lists of characters. -/
abbrev Str := List Char

/-- Python str.split with separator a newline (text.split of a newline
in scrape_webpage): split at each occurrence of the newline character,
keeping empty pieces. -/
def pySplitNl : Str → List Str
  | [] => [[]]
  | c :: cs =>
    match pySplitNl cs with
    | [] => [[]]
    | w :: ws => if c = '\n' then [] :: w :: ws else (c :: w) :: ws

/-- Python str.split with no separator (s.split() in scrape_webpage):
split on whitespace runs, discarding empty pieces. -/
def pyWords (s : Str) : List Str :=
  (List.splitOnP (fun c => c.isWhitespace) s).filter (fun w => !w.isEmpty)

/-- Python str.join with a single-space separator (" ".join(...) in
scrape_webpage). -/
def joinSp : List Str → Str
  | [] => []
  | [s] => s
  | s :: t :: rest => s ++ ' ' :: joinSp (t :: rest)

/-- An HTML element as seen by the scraper: its tag name and the text
BeautifulSoup get_text returns for it. -/
structure Element where
  tag : Str
  text : Str
  deriving DecidableEq

/-- soup.find_all(["h1", "p"]): the document-order sublist of elements
whose tag is h1 or p. -/
def find_all_h1_p (page : List Element) : List Element :=
  page.filter (fun e => e.tag ∈ ["h1".data, "p".data])

/-- The MIN_WORD_COUNT constant of scrape_webpage. -/
def MIN_WORD_COUNT : Nat := 10

/-- WebScraper.scrape_webpage, applied to the parsed page the fetched
URL yields: join the texts of the h1/p elements with single spaces,
split on newlines, keep the lines with at least MIN_WORD_COUNT words,
and rejoin with single spaces. -/
def scrape_webpage (page : List Element) : Str :=
  let relevant_tags := find_all_h1_p page
  let text := joinSp (relevant_tags.map Element.text)
  let sentences := pySplitNl text
  let filtered_sentences :=
    sentences.filter (fun s => MIN_WORD_COUNT ≤ (pyWords s).length)
  joinSp filtered_sentences

/-- A url element of the sitemap: the optional text of its loc child
(none when find on the loc tag returns None). -/
structure UrlElem where
  loc : Option Str
  deriving DecidableEq

/-- The substring filter applied to loc values in get_urls_in_sitemap. -/
def searchFilter : Str := "/search".data

/-- WebScraper.get_urls_in_sitemap, applied to the document-order list
of url elements of the fetched sitemap: keep the loc text of each url
element that has a loc child whose text does not contain "/search". -/
def get_urls_in_sitemap (sitemapUrls : List UrlElem) : List Str :=
  sitemapUrls.filterMap (fun u =>
    match u.loc with
    | none => none
    | some t => if searchFilter <:+: t then none else some t)

/-- Decimal representation of a natural number, as produced by the
Python f-string interpolation of idx in save_to_files. -/
def natToStr (n : Nat) : Str :=
  if n < 10 then [Nat.digitChar n]
  else natToStr (n / 10) ++ [Nat.digitChar (n % 10)]
termination_by n
decreasing_by exact Nat.div_lt_self (by omega) (by omega)

/-- The indexed file name data/webpage_<idx>.txt used in save_to_files. -/
def mkFilename (idx : Nat) : Str :=
  "data/webpage_".data ++ natToStr idx ++ ".txt".data

/-- The effect environment driving one run of save_to_files:
fetch models requests.get plus HTML parsing for a URL (error when the
scrape raises), writeOk models whether opening/writing a given file
name succeeds, rand models the random number generator consumed by
randint for each loop index, and csvOk models whether the final CSV
write succeeds. -/
structure Env where
  fetch : Str → Except Str (List Element)
  writeOk : Str → Bool
  rand : Nat → Nat
  csvOk : Bool

/-- Python dict assignment m[k] = v on an insertion-ordered dict
represented as an association list: an existing key keeps its position
and gets the new value, a new key is appended at the end. -/
def dictInsert (m : List (Str × Str)) (k v : Str) : List (Str × Str) :=
  if m.any (fun p => p.1 = k) then
    m.map (fun p => if p.1 = k then (k, v) else p)
  else m ++ [(k, v)]

/-- The mutable state of the save_to_files loop: the text files written
so far (name, contents), the url_to_file_map dict, and the sleep
durations performed so far. -/
structure LoopState where
  files : List (Str × Str)
  urlToFileMap : List (Str × Str)
  sleeps : List Nat
  deriving DecidableEq

/-- One iteration of the save_to_files loop at index idx: on a scrape
error the iteration is skipped entirely (the continue statement, which
also skips the sleep); otherwise the text is written when the write
succeeds (recording the file and the map entry), and the iteration ends
with a sleep of randint(3, 7) seconds. -/
def saveStep (env : Env) (s : LoopState) (idx : Nat) (url : Str) : LoopState :=
  match env.fetch url with
  | .error _ => s
  | .ok page =>
    let text := scrape_webpage page
    let filename := mkFilename idx
    let s1 :=
      if env.writeOk filename then
        { s with files := s.files ++ [(filename, text)],
                 urlToFileMap := dictInsert s.urlToFileMap url filename }
      else s
    { s1 with sleeps := s1.sleeps ++ [3 + env.rand idx % 5] }

/-- The save_to_files loop over the enumerated URL list, starting at
index idx. -/
def saveLoop (env : Env) : Nat → List Str → LoopState → LoopState
  | _, [], s => s
  | idx, url :: rest, s => saveLoop env (idx + 1) rest (saveStep env s idx url)

/-- The header row written first to the CSV mapping file. -/
def headerRow : Str × Str := ("URL".data, "Document".data)

/-- The observable outcome of a run of save_to_files: the contents of
the serialized URL array data/url_list.npy, the text files written
(name, contents) in order, the rows of data/url_to_file_map.csv (none
when the CSV write fails), and the sleep durations in order. -/
structure SaveResult where
  urlListNpy : List Str
  files : List (Str × Str)
  csvFile : Option (List (Str × Str))
  sleeps : List Nat

/-- WebScraper.save_to_files: serialize the URL list, run the scrape
loop from index 0 on an empty state, then write the header and the
url_to_file_map entries to the CSV file. -/
def save_to_files (env : Env) (urls : List Str) : SaveResult :=
  let final := saveLoop env 0 urls ⟨[], [], []⟩
  { urlListNpy := urls
    files := final.files
    csvFile := if env.csvOk then some (headerRow :: final.urlToFileMap) else none
    sleeps := final.sleeps }

/-- The file contribution of a single loop iteration. -/
def fileOut1 (env : Env) (idx : Nat) (url : Str) : List (Str × Str) :=
  match env.fetch url with
  | .error _ => []
  | .ok page =>
    if env.writeOk (mkFilename idx) then
      [(mkFilename idx, scrape_webpage page)]
    else []

/-- The sleep contribution of a single loop iteration. -/
def sleepOut1 (env : Env) (idx : Nat) (url : Str) : List Nat :=
  match env.fetch url with
  | .error _ => []
  | .ok _ => [3 + env.rand idx % 5]

/-- The text files the loop starting at index idx contributes: one file
per URL whose fetch succeeds and whose write succeeds. -/
def fileOuts (env : Env) : Nat → List Str → List (Str × Str)
  | _, [] => []
  | idx, url :: rest => fileOut1 env idx url ++ fileOuts env (idx + 1) rest

/-- The sleep durations the loop starting at index idx performs: one
per URL whose fetch succeeds (the continue on a scrape error skips the
sleep). -/
def sleepOuts (env : Env) : Nat → List Str → List Nat
  | _, [] => []
  | idx, url :: rest => sleepOut1 env idx url ++ sleepOuts env (idx + 1) rest

/-- The effect of one loop iteration on the url_to_file_map dict. -/
def mapStep (env : Env) (idx : Nat) (url : Str) (m : List (Str × Str)) :
    List (Str × Str) :=
  match env.fetch url with
  | .error _ => m
  | .ok _ =>
    if env.writeOk (mkFilename idx) then dictInsert m url (mkFilename idx) else m

/-- The url_to_file_map dict after the loop starting at index idx. -/
def mapOuts (env : Env) : Nat → List Str → List (Str × Str) → List (Str × Str)
  | _, [], m => m
  | idx, url :: rest, m => mapOuts env (idx + 1) rest (mapStep env idx url m)

/-- Numeric value of a decimal digit character. -/
def digitVal (c : Char) : Nat := c.toNat - 48

/-- Numeric value of a decimal digit string. -/
def strVal (s : Str) : Nat := s.foldl (fun a c => 10 * a + digitVal c) 0

theorem strVal_append_digit (xs : Str) (c : Char) :
    strVal (xs ++ [c]) = 10 * strVal xs + digitVal c := by
  simp [strVal, List.foldl_append]

theorem digitVal_digitChar (m : Nat) (h : m < 10) :
    digitVal (Nat.digitChar m) = m := by
  interval_cases m <;> rfl

theorem strVal_natToStr (n : Nat) : strVal (natToStr n) = n := by
  induction n using Nat.strong_induction_on with
  | _ n ih =>
    rw [natToStr]
    split
    · next h =>
      show strVal [Nat.digitChar n] = n
      have h1 : strVal [Nat.digitChar n] = digitVal (Nat.digitChar n) := by
        simp [strVal]
      rw [h1, digitVal_digitChar n h]
    · next h =>
      rw [strVal_append_digit,
        ih (n / 10) (Nat.div_lt_self (by omega) (by omega)),
        digitVal_digitChar (n % 10) (Nat.mod_lt n (by omega))]
      omega

theorem natToStr_inj (a b : Nat) (h : natToStr a = natToStr b) : a = b := by
  have ha := strVal_natToStr a
  rw [h, strVal_natToStr] at ha
  exact ha.symm

theorem mkFilename_inj (a b : Nat) (h : mkFilename a = mkFilename b) : a = b := by
  unfold mkFilename at h
  rw [List.append_assoc, List.append_assoc] at h
  have h1 := List.append_cancel_left h
  have h2 := List.append_cancel_right h1
  exact natToStr_inj a b h2

theorem pySplitNl_cons_eq (c : Char) (cs w : Str) (ws : List Str)
    (h : pySplitNl cs = w :: ws) :
    pySplitNl (c :: cs) = if c = '\n' then [] :: w :: ws else (c :: w) :: ws := by
  rw [pySplitNl, h]

theorem pySplitNl_ne_nil (s : Str) : pySplitNl s ≠ [] := by
  induction s with
  | nil => simp [pySplitNl]
  | cons c cs ih =>
    cases h : pySplitNl cs with
    | nil => exact absurd h ih
    | cons w ws =>
      rw [pySplitNl_cons_eq c cs w ws h]
      split <;> simp

theorem pySplitNl_no_newline : ∀ (s w : Str), w ∈ pySplitNl s → '\n' ∉ w := by
  intro s
  induction s with
  | nil =>
    intro w hw
    simp [pySplitNl] at hw
    subst hw
    simp
  | cons c cs ih =>
    intro w hw
    cases h : pySplitNl cs with
    | nil => exact absurd h (pySplitNl_ne_nil cs)
    | cons w0 ws =>
      rw [pySplitNl_cons_eq c cs w0 ws h] at hw
      by_cases hc : c = '\n'
      · rw [if_pos hc] at hw
        rcases List.mem_cons.mp hw with h1 | h1
        · subst h1; simp
        · exact ih w (by rw [h]; exact h1)
      · rw [if_neg hc] at hw
        rcases List.mem_cons.mp hw with h1 | h1
        · subst h1
          intro hmem
          rcases List.mem_cons.mp hmem with h2 | h2
          · exact hc h2.symm
          · exact ih w0 (by rw [h]; exact List.mem_cons_self w0 ws) h2
        · exact ih w (by rw [h]; exact List.mem_cons.mpr (Or.inr h1))

theorem mem_joinSp : ∀ (l : List Str) (c : Char), c ∈ joinSp l →
    c = ' ' ∨ ∃ s, s ∈ l ∧ c ∈ s := by
  intro l
  induction l with
  | nil => intro c hc; simp [joinSp] at hc
  | cons s rest ih =>
    intro c hc
    cases rest with
    | nil =>
      rw [joinSp] at hc
      exact Or.inr ⟨s, by simp, hc⟩
    | cons t rest2 =>
      rw [joinSp] at hc
      rcases List.mem_append.mp hc with h1 | h1
      · exact Or.inr ⟨s, by simp, h1⟩
      · rcases List.mem_cons.mp h1 with h2 | h2
        · exact Or.inl h2
        · rcases ih c h2 with h3 | ⟨s2, hs2, hcs2⟩
          · exact Or.inl h3
          · exact Or.inr ⟨s2, List.mem_cons.mpr (Or.inr hs2), hcs2⟩

theorem scrape_webpage_no_newline (page : List Element) :
    '\n' ∉ scrape_webpage page := by
  intro hmem
  have hmem2 : '\n' ∈ joinSp
      ((pySplitNl (joinSp ((find_all_h1_p page).map Element.text))).filter
        (fun s => MIN_WORD_COUNT ≤ (pyWords s).length)) := hmem
  rcases mem_joinSp _ _ hmem2 with h | ⟨s, hs, hcs⟩
  · exact absurd h (by decide)
  · exact pySplitNl_no_newline _ s (List.mem_filter.mp hs).1 hcs

theorem saveStep_files (env : Env) (s : LoopState) (idx : Nat) (url : Str) :
    (saveStep env s idx url).files = s.files ++ fileOut1 env idx url := by
  unfold saveStep fileOut1
  cases env.fetch url with
  | error e => simp
  | ok page => by_cases hw : env.writeOk (mkFilename idx) <;> simp [hw]

theorem saveStep_sleeps (env : Env) (s : LoopState) (idx : Nat) (url : Str) :
    (saveStep env s idx url).sleeps = s.sleeps ++ sleepOut1 env idx url := by
  unfold saveStep sleepOut1
  cases env.fetch url with
  | error e => simp
  | ok page => by_cases hw : env.writeOk (mkFilename idx) <;> simp [hw]

theorem saveStep_map (env : Env) (s : LoopState) (idx : Nat) (url : Str) :
    (saveStep env s idx url).urlToFileMap = mapStep env idx url s.urlToFileMap := by
  unfold saveStep mapStep
  cases env.fetch url with
  | error e => simp
  | ok page => by_cases hw : env.writeOk (mkFilename idx) <;> simp [hw]

theorem fileOuts_cons (env : Env) (idx : Nat) (url : Str) (rest : List Str) :
    fileOuts env idx (url :: rest) =
      fileOut1 env idx url ++ fileOuts env (idx + 1) rest := rfl

theorem sleepOuts_cons (env : Env) (idx : Nat) (url : Str) (rest : List Str) :
    sleepOuts env idx (url :: rest) =
      sleepOut1 env idx url ++ sleepOuts env (idx + 1) rest := rfl

theorem saveLoop_files (env : Env) : ∀ (urls : List Str) (idx : Nat) (s : LoopState),
    (saveLoop env idx urls s).files = s.files ++ fileOuts env idx urls := by
  intro urls
  induction urls with
  | nil => intro idx s; simp [saveLoop, fileOuts]
  | cons url rest ih =>
    intro idx s
    rw [saveLoop, ih, saveStep_files, fileOuts_cons, List.append_assoc]

theorem saveLoop_sleeps (env : Env) : ∀ (urls : List Str) (idx : Nat) (s : LoopState),
    (saveLoop env idx urls s).sleeps = s.sleeps ++ sleepOuts env idx urls := by
  intro urls
  induction urls with
  | nil => intro idx s; simp [saveLoop, sleepOuts]
  | cons url rest ih =>
    intro idx s
    rw [saveLoop, ih, saveStep_sleeps, sleepOuts_cons, List.append_assoc]

theorem saveLoop_map (env : Env) : ∀ (urls : List Str) (idx : Nat) (s : LoopState),
    (saveLoop env idx urls s).urlToFileMap = mapOuts env idx urls s.urlToFileMap := by
  intro urls
  induction urls with
  | nil => intro idx s; simp [saveLoop, mapOuts]
  | cons url rest ih =>
    intro idx s
    rw [saveLoop, ih, saveStep_map, mapOuts]

theorem save_to_files_files (env : Env) (urls : List Str) :
    (save_to_files env urls).files = fileOuts env 0 urls := by
  show (saveLoop env 0 urls ⟨[], [], []⟩).files = fileOuts env 0 urls
  rw [saveLoop_files]
  rfl

theorem save_to_files_sleeps (env : Env) (urls : List Str) :
    (save_to_files env urls).sleeps = sleepOuts env 0 urls := by
  show (saveLoop env 0 urls ⟨[], [], []⟩).sleeps = sleepOuts env 0 urls
  rw [saveLoop_sleeps]
  rfl

theorem save_to_files_csv (env : Env) (urls : List Str) :
    (save_to_files env urls).csvFile =
      if env.csvOk then some (headerRow :: mapOuts env 0 urls []) else none := by
  show (if env.csvOk then
      some (headerRow :: (saveLoop env 0 urls ⟨[], [], []⟩).urlToFileMap) else none) = _
  rw [saveLoop_map]

/-- Shifting an existence statement over indexed positions of a list
across a cons cell. -/
theorem exists_idx_cons {P : Nat → Str → Prop} (url : Str) (rest : List Str) :
    (∃ i u, (url :: rest).get? i = some u ∧ P i u) ↔
      P 0 url ∨ ∃ i u, rest.get? i = some u ∧ P (i + 1) u := by
  constructor
  · rintro ⟨i, u, hg, hp⟩
    cases i with
    | zero =>
      rw [List.get?_cons_zero] at hg
      cases hg
      exact Or.inl hp
    | succ j => exact Or.inr ⟨j, u, hg, hp⟩
  · rintro (hp | ⟨i, u, hg, hp⟩)
    · exact ⟨0, url, rfl, hp⟩
    · exact ⟨i + 1, u, hg, hp⟩

theorem mem_fileOut1 (env : Env) (idx : Nat) (url fn t : Str) :
    (fn, t) ∈ fileOut1 env idx url ↔
      ∃ page, env.fetch url = .ok page ∧ env.writeOk (mkFilename idx) = true ∧
        fn = mkFilename idx ∧ t = scrape_webpage page := by
  unfold fileOut1
  cases hf : env.fetch url with
  | error e => simp
  | ok page =>
    by_cases hw : env.writeOk (mkFilename idx) <;> simp [hw, Prod.ext_iff]

theorem mem_fileOuts (env : Env) : ∀ (urls : List Str) (n : Nat) (fn t : Str),
    (fn, t) ∈ fileOuts env n urls ↔
      ∃ i u, urls.get? i = some u ∧ ∃ page, env.fetch u = .ok page ∧
        env.writeOk (mkFilename (n + i)) = true ∧
        fn = mkFilename (n + i) ∧ t = scrape_webpage page := by
  intro urls
  induction urls with
  | nil => intro n fn t; simp [fileOuts]
  | cons url rest ih =>
    intro n fn t
    rw [fileOuts_cons]
    rw [@exists_idx_cons (fun i u => ∃ page, env.fetch u = .ok page ∧
      env.writeOk (mkFilename (n + i)) = true ∧
      fn = mkFilename (n + i) ∧ t = scrape_webpage page) url rest]
    have hsh : ∀ i : Nat, n + 1 + i = n + (i + 1) := fun i => by omega
    simp only [List.mem_append, mem_fileOut1, ih, Nat.add_zero, hsh]

theorem sleepOuts_bounds (env : Env) : ∀ (urls : List Str) (n d : Nat),
    d ∈ sleepOuts env n urls → 3 ≤ d ∧ d ≤ 7 := by
  intro urls
  induction urls with
  | nil => intro n d hd; simp [sleepOuts] at hd
  | cons url rest ih =>
    intro n d hd
    rw [sleepOuts_cons] at hd
    rcases List.mem_append.mp hd with h1 | h1
    · unfold sleepOut1 at h1
      cases hf : env.fetch url with
      | error e => rw [hf] at h1; simp at h1
      | ok page =>
        rw [hf] at h1
        have h2 : d ∈ [3 + env.rand n % 5] := h1
        rw [List.mem_singleton] at h2
        subst h2
        have := Nat.mod_lt (env.rand n) (show 0 < 5 by omega)
        omega
    · exact ih (n + 1) d h1

theorem dictInsert_mem_sub (m : List (Str × Str)) (k v a b : Str)
    (h : (a, b) ∈ dictInsert m k v) : (a, b) ∈ m ∨ a = k ∧ b = v := by
  unfold dictInsert at h
  split at h
  · rcases List.mem_map.mp h with ⟨p, hp, he⟩
    by_cases hpk : p.1 = k
    · rw [if_pos hpk] at he
      have h1 : k = a ∧ v = b := Prod.mk.injEq .. ▸ he
      exact Or.inr ⟨h1.1.symm, h1.2.symm⟩
    · rw [if_neg hpk] at he
      exact Or.inl (he ▸ hp)
  · rcases List.mem_append.mp h with h1 | h1
    · exact Or.inl h1
    · rw [List.mem_singleton] at h1
      have h2 : a = k ∧ b = v := Prod.mk.injEq .. ▸ h1
      exact Or.inr h2

theorem dictInsert_self (m : List (Str × Str)) (k v : Str) :
    ∃ fn, (k, fn) ∈ dictInsert m k v := by
  unfold dictInsert
  split
  · next hany =>
    rcases List.any_eq_true.mp hany with ⟨p, hp, hpk⟩
    refine ⟨v, List.mem_map.mpr ⟨p, hp, ?_⟩⟩
    rw [if_pos (of_decide_eq_true hpk)]
  · exact ⟨v, List.mem_append.mpr (Or.inr (List.mem_singleton.mpr rfl))⟩

theorem dictInsert_key_mem (m : List (Str × Str)) (k v u : Str) :
    (∃ fn, (u, fn) ∈ dictInsert m k v) ↔ u = k ∨ ∃ fn, (u, fn) ∈ m := by
  constructor
  · rintro ⟨fn, hfn⟩
    rcases dictInsert_mem_sub m k v u fn hfn with h | ⟨h1, h2⟩
    · exact Or.inr ⟨fn, h⟩
    · exact Or.inl h1
  · rintro (rfl | ⟨fn, hfn⟩)
    · exact dictInsert_self m u v
    · by_cases huk : u = k
      · subst huk
        exact dictInsert_self m u v
      · unfold dictInsert
        split
        · refine ⟨fn, List.mem_map.mpr ⟨(u, fn), hfn, ?_⟩⟩
          rw [if_neg]
          exact huk
        · exact ⟨fn, List.mem_append.mpr (Or.inl hfn)⟩

theorem mapStep_error (env : Env) (idx : Nat) (url : Str) (m : List (Str × Str))
    (e : Str) (h : env.fetch url = .error e) : mapStep env idx url m = m := by
  unfold mapStep
  rw [h]

theorem mapStep_ok (env : Env) (idx : Nat) (url : Str) (m : List (Str × Str))
    (page : List Element) (h : env.fetch url = .ok page) :
    mapStep env idx url m =
      if env.writeOk (mkFilename idx) = true then dictInsert m url (mkFilename idx)
      else m := by
  unfold mapStep
  rw [h]

theorem mem_mapOuts_key (env : Env) :
    ∀ (urls : List Str) (n : Nat) (m : List (Str × Str)) (u : Str),
    (∃ fn, (u, fn) ∈ mapOuts env n urls m) ↔
      (∃ fn, (u, fn) ∈ m) ∨
        ∃ i v, urls.get? i = some v ∧ (v = u ∧ (∃ page, env.fetch v = .ok page) ∧
          env.writeOk (mkFilename (n + i)) = true) := by
  intro urls
  induction urls with
  | nil => intro n m u; simp [mapOuts]
  | cons url rest ih =>
    intro n m u
    rw [show mapOuts env n (url :: rest) m
        = mapOuts env (n + 1) rest (mapStep env n url m) from rfl]
    rw [ih]
    rw [@exists_idx_cons (fun i v => v = u ∧ (∃ page, env.fetch v = .ok page) ∧
      env.writeOk (mkFilename (n + i)) = true) url rest]
    have hsh : ∀ i : Nat, n + 1 + i = n + (i + 1) := fun i => by omega
    simp only [hsh, Nat.add_zero]
    cases hf : env.fetch url with
    | error e =>
      rw [mapStep_error env n url m e hf]
      simp
    | ok page =>
      rw [mapStep_ok env n url m page hf]
      by_cases hw : env.writeOk (mkFilename n) = true
      · rw [if_pos hw, dictInsert_key_mem]
        constructor
        · rintro ((h1 | h1) | h1)
          · exact Or.inr (Or.inl ⟨h1.symm, ⟨page, rfl⟩, hw⟩)
          · exact Or.inl h1
          · exact Or.inr (Or.inr h1)
        · rintro (h1 | (⟨h1, h2, h3⟩ | h1))
          · exact Or.inl (Or.inr h1)
          · exact Or.inl (Or.inl h1.symm)
          · exact Or.inr h1
      · rw [if_neg hw]
        simp [hw]

theorem mapOuts_entries (env : Env) :
    ∀ (urls : List Str) (n : Nat) (m : List (Str × Str)) (u fn : Str),
    (u, fn) ∈ mapOuts env n urls m →
      (u, fn) ∈ m ∨
        ∃ i page, urls.get? i = some u ∧ env.fetch u = .ok page ∧
          env.writeOk (mkFilename (n + i)) = true ∧ fn = mkFilename (n + i) := by
  intro urls
  induction urls with
  | nil => intro n m u fn h; exact Or.inl h
  | cons url rest ih =>
    intro n m u fn h
    rcases ih (n + 1) (mapStep env n url m) u fn h with h1 | ⟨i, page, hg, hfe, hw, hfn⟩
    · unfold mapStep at h1
      cases hf : env.fetch url with
      | error e =>
        rw [hf] at h1
        exact Or.inl h1
      | ok page =>
        rw [hf] at h1
        have h2 : (u, fn) ∈
            (if env.writeOk (mkFilename n) then dictInsert m url (mkFilename n)
             else m) := h1
        by_cases hw : env.writeOk (mkFilename n)
        · rw [if_pos hw] at h2
          rcases dictInsert_mem_sub m url (mkFilename n) u fn h2 with h3 | ⟨h3, h4⟩
          · exact Or.inl h3
          · refine Or.inr ⟨0, page, ?_, ?_, ?_, ?_⟩
            · rw [List.get?_cons_zero, h3]
            · rw [h3, hf]
            · rw [Nat.add_zero]; exact hw
            · rw [Nat.add_zero]; exact h4
        · rw [if_neg hw] at h2
          exact Or.inl h2
    · refine Or.inr ⟨i + 1, page, hg, hfe, ?_, ?_⟩
      · have he : n + (i + 1) = n + 1 + i := by omega
        rw [he]; exact hw
      · have he : n + (i + 1) = n + 1 + i := by omega
        rw [he]; exact hfn

/-- A sample URL used for concrete runs. -/
def urlA : Str := "https://example.com/a".data

/-- Environment in which every fetch yields an empty page, every write
succeeds, the random source returns 0, and the CSV write succeeds. -/
def envA : Env := ⟨fun _ => Except.ok [], fun _ => true, fun _ => 0, true⟩

/-- Like envA but the random source returns 1. -/
def envR1 : Env := ⟨fun _ => Except.ok [], fun _ => true, fun _ => 1, true⟩

/-- Like envA but every file write fails. -/
def envW0 : Env := ⟨fun _ => Except.ok [], fun _ => false, fun _ => 0, true⟩

/-- Environment in which every fetch raises. -/
def envErr : Env := ⟨fun _ => Except.error [], fun _ => true, fun _ => 0, true⟩

/-- Claim C1: for every fetched page, scrape_webpage returns the text
obtained by concatenating the texts of the selected heading/paragraph
elements (joined with single spaces), splitting that concatenation on
newline characters, dropping every line whose word count is under the
minimum word-count threshold (10), and rejoining the remaining lines
with single spaces. -/
theorem claim_C1 (page : List Element) :
    scrape_webpage page =
      joinSp ((pySplitNl (joinSp ((find_all_h1_p page).map Element.text))).filter
        (fun s => !decide ((pyWords s).length < MIN_WORD_COUNT))) := by
  show joinSp ((pySplitNl (joinSp ((find_all_h1_p page).map Element.text))).filter
    (fun s => decide (MIN_WORD_COUNT ≤ (pyWords s).length))) = _
  congr 1
  apply List.filter_congr
  intro s _
  rw [← decide_not]
  exact decide_eq_decide.mpr (Iff.symm Nat.not_lt)

/-- Claim C2: for every sitemap, get_urls_in_sitemap returns the text
values of the loc children of the url elements, in document order,
excluding every loc value that contains the substring "/search". -/
theorem claim_C2 (sitemapUrls : List UrlElem) :
    get_urls_in_sitemap sitemapUrls =
      (sitemapUrls.filterMap UrlElem.loc).filter
        (fun t => !decide (searchFilter <:+: t)) := by
  induction sitemapUrls with
  | nil => rfl
  | cons e rest ih =>
    unfold get_urls_in_sitemap at ih ⊢
    rw [List.filterMap_cons, List.filterMap_cons]
    cases hl : e.loc with
    | none => simpa using ih
    | some t =>
      by_cases hs : searchFilter <:+: t
      · simp [hs, ih]
      · simp [hs, ih]

/-- Claim C9: a url element with no loc child is silently excluded by
get_urls_in_sitemap: it contributes no entry to the returned list (and,
the embedding being total, raises no error). -/
theorem claim_C9 (front back : List UrlElem) :
    get_urls_in_sitemap (front ++ UrlElem.mk none :: back) =
      get_urls_in_sitemap (front ++ back) := by
  unfold get_urls_in_sitemap
  simp [List.filterMap_append, List.filterMap_cons]

/-- The tag names of the HTML heading elements h1 through h6. -/
def headingTags : List Str :=
  ["h1".data, "h2".data, "h3".data, "h4".data, "h5".data, "h6".data]

/-- Claim C5 as stated: the elements whose text scrape_webpage extracts
from a parsed page are all of the page's heading elements and all of
its paragraph elements. -/
def C5Statement : Prop :=
  ∀ page : List Element,
    find_all_h1_p page =
      page.filter (fun e => decide (e.tag ∈ headingTags ∨ e.tag = "p".data))

/-- Claim C5 fails: a page consisting of a single h2 heading element is
a counterexample, because find_all selects only h1 and p tags. -/
theorem claim_C5_counterexample : ¬ C5Statement := fun h =>
  absurd (h [⟨"h2".data, []⟩]) (by decide)

/-- Claim C5 amended: the elements whose text scrape_webpage extracts
are exactly those whose tag is h1 or p; heading elements h2 through h6
are not extracted. -/
theorem claim_C5 (page : List Element) :
    find_all_h1_p page =
      page.filter (fun e => decide (e.tag = "h1".data ∨ e.tag = "p".data)) := by
  unfold find_all_h1_p
  apply List.filter_congr
  intro e _
  exact decide_eq_decide.mpr (by simp)

/-- Claim C10: the string scrape_webpage returns contains no newline
character, so every per-URL text file written by save_to_files holds a
single line of text. -/
theorem claim_C10 (page : List Element) (env : Env) (urls : List Str) :
    '\n' ∉ scrape_webpage page ∧
      ∀ fn t, (fn, t) ∈ (save_to_files env urls).files → '\n' ∉ t := by
  refine ⟨scrape_webpage_no_newline page, ?_⟩
  intro fn t hmem
  rw [save_to_files_files, mem_fileOuts] at hmem
  obtain ⟨i, u, hg, pg, hf, hw, hfn, ht⟩ := hmem
  rw [ht]
  exact scrape_webpage_no_newline pg

/-- Witness for claim C10 at a concrete run: the file written for urlA
in envA holds the empty text, which contains no newline. -/
theorem claim_C10_witness : '\n' ∉ ([] : Str) :=
  (claim_C10 [] envA [urlA]).2 (mkFilename 0) [] (List.Mem.head _)

/-- Claim C6: save_to_files serializes the original input URL list, in
order and in full, independent of which URLs later fail to scrape or
fail to be written. -/
theorem claim_C6 (env env2 : Env) (urls : List Str) :
    (save_to_files env urls).urlListNpy = urls ∧
      (save_to_files env urls).urlListNpy = (save_to_files env2 urls).urlListNpy :=
  ⟨rfl, rfl⟩

/-- Claim C7: a URL at zero-based position i of the input whose text is
successfully written is written to the indexed file data/webpage_i.txt,
and every written file is the indexed file of the position of the URL
whose extracted text it holds (so failed URLs leave gaps in the index
sequence). -/
theorem claim_C7 (env : Env) (urls : List Str) (i : Nat) (u : Str)
    (page : List Element) (hget : urls.get? i = some u)
    (hok : env.fetch u = .ok page)
    (hw : env.writeOk (mkFilename i) = true) :
    (mkFilename i, scrape_webpage page) ∈ (save_to_files env urls).files ∧
      ∀ fn t, (fn, t) ∈ (save_to_files env urls).files →
        ∃ j v pg, urls.get? j = some v ∧ fn = mkFilename j ∧
          env.fetch v = .ok pg ∧ t = scrape_webpage pg := by
  constructor
  · rw [save_to_files_files, mem_fileOuts]
    refine ⟨i, u, hget, page, hok, ?_, ?_, rfl⟩
    · rw [Nat.zero_add]; exact hw
    · rw [Nat.zero_add]
  · intro fn t hmem
    rw [save_to_files_files, mem_fileOuts] at hmem
    obtain ⟨j, v, hg, pg, hf2, hw2, hfn, ht⟩ := hmem
    rw [Nat.zero_add] at hfn
    exact ⟨j, v, pg, hg, hfn, hf2, ht⟩

/-- Witness for claim C7 at a concrete run: the file for urlA at
position 0 in envA. -/
theorem claim_C7_witness :
    (mkFilename 0, scrape_webpage []) ∈ (save_to_files envA [urlA]).files :=
  (claim_C7 envA [urlA] 0 urlA [] rfl rfl rfl).1

/-- Claim C3 as stated: after save_to_files completes, the CSV mapping
file contains a row for every input URL that was successfully scraped
(stated for runs whose CSV write succeeds). -/
def C3Statement : Prop :=
  ∀ (env : Env) (urls : List Str), env.csvOk = true →
    ∀ u, u ∈ urls → (∃ page, env.fetch u = .ok page) →
      ∃ rows fn, (save_to_files env urls).csvFile = some (headerRow :: rows) ∧
        (u, fn) ∈ rows

/-- Claim C3 fails: in an environment where the fetch of urlA succeeds
but the file write fails, urlA is successfully scraped yet gets no row
in the CSV mapping. -/
theorem claim_C3_counterexample : ¬ C3Statement := by
  intro h
  obtain ⟨rows, fn, hcsv, hmem⟩ :=
    h envW0 [urlA] rfl urlA (List.mem_singleton.mpr rfl) ⟨[], rfl⟩
  have hred : (save_to_files envW0 [urlA]).csvFile = some [headerRow] := rfl
  rw [hred] at hcsv
  injection hcsv with h1
  injection h1 with h2 h3
  rw [← h3] at hmem
  simp at hmem

/-- Claim C3 amended: provided the final CSV write succeeds, the CSV
mapping file contains a row for exactly those input URLs that were
successfully scraped and whose text file write succeeded, the filename
of a row being a written file that holds that URL's extracted text. -/
theorem claim_C3 (env : Env) (urls : List Str) (hcsv : env.csvOk = true) :
    ∃ rows, (save_to_files env urls).csvFile = some (headerRow :: rows) ∧
      (∀ u, (∃ fn, (u, fn) ∈ rows) ↔
        ∃ i, urls.get? i = some u ∧ (∃ page, env.fetch u = .ok page) ∧
          env.writeOk (mkFilename i) = true) ∧
      ∀ u fn, (u, fn) ∈ rows →
        ∃ page, env.fetch u = .ok page ∧
          (fn, scrape_webpage page) ∈ (save_to_files env urls).files := by
  refine ⟨mapOuts env 0 urls [], ?_, ?_, ?_⟩
  · rw [save_to_files_csv, if_pos hcsv]
  · intro u
    rw [mem_mapOuts_key]
    constructor
    · rintro (⟨fn, hfn⟩ | ⟨i, v, hg, hv, hpg, hw⟩)
      · simp at hfn
      · subst hv
        rw [Nat.zero_add] at hw
        exact ⟨i, hg, hpg, hw⟩
    · rintro ⟨i, hg, hpg, hw⟩
      right
      refine ⟨i, u, hg, rfl, hpg, ?_⟩
      rw [Nat.zero_add]
      exact hw
  · intro u fn hmem
    rcases mapOuts_entries env urls 0 [] u fn hmem with h | ⟨i, page, hg, hf, hw, hfn⟩
    · simp at h
    · refine ⟨page, hf, ?_⟩
      rw [save_to_files_files, mem_fileOuts]
      exact ⟨i, u, hg, page, hf, hw, hfn, rfl⟩

/-- Witness for the amended claim C3 at a concrete run in envA. -/
theorem claim_C3_witness :
    ∃ rows, (save_to_files envA [urlA]).csvFile = some (headerRow :: rows) := by
  obtain ⟨rows, h1, h2, h3⟩ := claim_C3 envA [urlA] rfl
  exact ⟨rows, h1⟩

/-- Claim C4: a URL whose scrape raises is skipped: no text file is
written for its index, it gets no entry in the URL-to-filename mapping,
and processing continues with the other URLs in the list (each later
successful URL still gets its own indexed file); each URL is consulted
exactly once, so there is no retry. -/
theorem claim_C4 (env : Env) (urls : List Str) (i : Nat) (u e : Str)
    (hget : urls.get? i = some u) (hfail : env.fetch u = .error e) :
    (∀ t, (mkFilename i, t) ∉ (save_to_files env urls).files) ∧
      (∀ rows, (save_to_files env urls).csvFile = some (headerRow :: rows) →
        ∀ v, (v, mkFilename i) ∉ rows) ∧
      ∀ j v page, urls.get? j = some v → env.fetch v = .ok page →
        env.writeOk (mkFilename j) = true →
        (mkFilename j, scrape_webpage page) ∈ (save_to_files env urls).files := by
  refine ⟨?_, ?_, ?_⟩
  · intro t hmem
    rw [save_to_files_files, mem_fileOuts] at hmem
    obtain ⟨i2, u2, hg2, pg2, hf2, hw2, hfn2, ht2⟩ := hmem
    have hii : i = 0 + i2 := mkFilename_inj _ _ hfn2
    rw [Nat.zero_add] at hii
    subst hii
    rw [hget] at hg2
    injection hg2 with hu
    subst hu
    rw [hfail] at hf2
    simp at hf2
  · intro rows hrows v hventry
    rw [save_to_files_csv] at hrows
    by_cases hc : env.csvOk = true
    · rw [if_pos hc] at hrows
      injection hrows with h1
      injection h1 with h2 h3
      rw [← h3] at hventry
      rcases mapOuts_entries env urls 0 [] v (mkFilename i) hventry with
        h4 | ⟨i2, pg, hg2, hf2, hw2, hfn2⟩
      · simp at h4
      · have hii : i = 0 + i2 := mkFilename_inj _ _ hfn2
        rw [Nat.zero_add] at hii
        subst hii
        rw [hget] at hg2
        injection hg2 with hu
        subst hu
        rw [hfail] at hf2
        simp at hf2
    · rw [if_neg hc] at hrows
      simp at hrows
  · intro j v page hgj hfj hwj
    rw [save_to_files_files, mem_fileOuts]
    refine ⟨j, v, hgj, page, hfj, ?_, ?_, rfl⟩
    · rw [Nat.zero_add]; exact hwj
    · rw [Nat.zero_add]

/-- Witness for claim C4 at a concrete run: in envErr every fetch
raises, and no file is written for index 0. -/
theorem claim_C4_witness :
    (mkFilename 0, ([] : Str)) ∉ (save_to_files envErr [urlA]).files :=
  (claim_C4 envErr [urlA] 0 urlA [] rfl rfl).1 []

/-- Claim C8 as stated: the delay save_to_files inserts after
processing each URL is a fixed constant, the same for every URL and
every run, not dependent on any source of randomness. -/
def C8Statement : Prop :=
  ∃ c : Nat, ∀ (env : Env) (urls : List Str) (d : Nat),
    d ∈ (save_to_files env urls).sleeps → d = c

/-- Claim C8 fails: two runs differing only in the random source sleep
3 seconds and 4 seconds respectively, so no one constant covers every
URL and every run. -/
theorem claim_C8_counterexample : ¬ C8Statement := by
  rintro ⟨c, hc⟩
  have h3 : (3 : Nat) = c := hc envA [urlA] 3 (by decide)
  have h4 : (4 : Nat) = c := hc envR1 [urlA] 4 (by decide)
  omega

/-- Claim C8 amended: the delay after each successfully scraped URL is
randint(3, 7): an integer drawn from the random source, between 3 and 7
seconds inclusive, rather than a fixed constant. -/
theorem claim_C8 (env : Env) (urls : List Str) :
    (save_to_files env urls).sleeps = sleepOuts env 0 urls ∧
      ∀ d ∈ (save_to_files env urls).sleeps, 3 ≤ d ∧ d ≤ 7 := by
  refine ⟨save_to_files_sleeps env urls, ?_⟩
  intro d hd
  rw [save_to_files_sleeps] at hd
  exact sleepOuts_bounds env urls 0 d hd

/-- Witness for the amended claim C8 at a concrete run in envA. -/
theorem claim_C8_witness :
    (save_to_files envA [urlA]).sleeps = sleepOuts envA 0 [urlA] ∧
      (3 ≤ 3 ∧ 3 ≤ 7) :=
  ⟨(claim_C8 envA [urlA]).1, (claim_C8 envA [urlA]).2 3 (by decide)⟩

end WebScraper
